import Mathlib

/-!
Verification of the ansible-lint FQCN rule (`src/ansiblelint/rules/fqcn.py`)
and the default kind-classification table (`src/ansiblelint/config.py`).

Python strings are embedded as `List Char`; Python `dict[str, str]` (insertion
ordered, unique keys) is embedded as an association list with
replace-in-place-or-append assignment, which matches CPython dict semantics
for the operations that the source uses (`in`, indexing, item assignment,
`popitem(last=False)`).
-/

/-- Python `str`, embedded as a list of characters. -/
abbrev Str := List Char

/-- The backtick character (written via its code point, U+0060). -/
def btk : Char := Char.ofNat 96

/-- The opening brace character (U+007B). -/
def lbrace : Char := Char.ofNat 123

/-- The closing brace character (U+007D). -/
def rbrace : Char := Char.ofNat 125

/-- Python `str.split(sep)` for a one-character separator `c`:
splits on every occurrence of `c`, removing the separators; adjacent
separators yield empty segments, and the result is never empty. -/
def splitOnChar (c : Char) : Str → List Str
  | [] => [[]]
  | a :: rest =>
    match splitOnChar c rest with
    | [] => [[]]
    | s :: ss => if a = c then [] :: s :: ss else (a :: s) :: ss

/-- Split a string at the first occurrence of `c`: returns the part before
and the part after (separator removed), or `none` if `c` does not occur. -/
def breakAt (c : Char) : Str → Option (Str × Str)
  | [] => none
  | a :: rest =>
    if a = c then some ([], rest)
    else (breakAt c rest).map (fun pr => (a :: pr.1, pr.2))

/-- Python `s.replace(pat, repl, 1)`: replace the first occurrence of `pat`
in `s` by `repl`; `s` is returned unchanged when `pat` does not occur. -/
def replaceFirst (pat repl : Str) : Str → Str
  | [] => []
  | a :: rest =>
    if pat.isPrefixOf (a :: rest) then repl ++ (a :: rest).drop pat.length
    else a :: replaceFirst pat repl rest

/-- Lookup in an ordered dictionary (Python `d[k]` / `k in d`). -/
def odFind (k : Str) : List (Str × α) → Option α
  | [] => none
  | (k', v) :: rest => if k' = k then some v else odFind k rest

/-- Assignment in an ordered dictionary (Python `d[k] = v`): if the key is
present its value is updated in place (position kept), else the pair is
appended at the end — CPython insertion-order semantics. -/
def odSet (k : Str) (v : α) : List (Str × α) → List (Str × α)
  | [] => [(k, v)]
  | (k', v') :: rest => if k' = k then (k, v) :: rest else (k', v') :: odSet k v rest

/-- The keys of an ordered dictionary, in order. -/
def odKeys (t : List (Str × α)) : List Str := t.map Prod.fst

/-- A normalized finding, as built by `create_matcherror` in
`FQCNBuiltinsRule`: message, remediation details (empty when not passed),
tag, and line number.  The filename is irrelevant to every claim and is
omitted. -/
structure MatchError where
  message : Str
  details : Str
  tag : Str
  lineno : Nat
deriving DecidableEq, Repr

/-- Tag `fqcn[action-core]`. -/
def tag_core : Str := "fqcn[action-core]".data

/-- Tag `fqcn[action]`. -/
def tag_action : Str := "fqcn[action]".data

/-- Tag `fqcn[canonical]`. -/
def tag_canonical : Str := "fqcn[canonical]".data

/-- Tag `fqcn[keyword]`. -/
def tag_keyword : Str := "fqcn[keyword]".data

/-- Message of an `fqcn[action-core]` finding (fqcn.py line 135). -/
def msg_core (module : Str) : Str :=
  "Use FQCN for builtin module actions (".data ++ module ++ ").".data

/-- Details of an `fqcn[action-core]` finding (fqcn.py line 136). -/
def details_core (malias legacy : Str) : Str :=
  "Use `".data ++ malias ++ "` or `".data ++ legacy ++ "` instead.".data

/-- Message of an `fqcn[action]` finding (fqcn.py line 146). -/
def msg_action (malias : Str) : Str :=
  "Use FQCN for module actions, such `".data ++ malias ++ "`.".data

/-- Details of an `fqcn[action]` finding (fqcn.py line 147). -/
def details_action (module : Str) : Str :=
  "Action `".data ++ module ++ "` is not FQCN.".data

/-- Message of an `fqcn[canonical]` finding (fqcn.py line 161). -/
def msg_canonical (malias module : Str) : Str :=
  "You should use canonical module name `".data ++ malias ++ "` instead of `".data
    ++ module ++ "`.".data

/-- Message of an `fqcn[keyword]` finding (fqcn.py line 175). -/
def msg_keyword : Str :=
  "Avoid `collections` keyword by using FQCN for all plugins, modules, roles and playbooks.".data

/-- The initial value of `FQCNBuiltinsRule.module_aliases` as written at
class-definition time (fqcn.py line 103). -/
def module_aliases_init : List (Str × Str) :=
  [("block/always/rescue".data, "block/always/rescue".data)]

/-- Lines 124–166 of fqcn.py: given the original module name and its cached
resolution `self.module_aliases[module]`, produce the findings.  Faithful to the
`if`/`elif` chain, including the operator-precedence of line 156–158 where
`not a or b` parses as `(not a) or b`. -/
def check (module malias : Str) (lineno : Nat) : List MatchError :=
  if module = malias then []
  else if ("ansible.builtin".data).isPrefixOf malias then
    let legacy := replaceFirst "ansible.builtin.".data "ansible.legacy.".data malias
    if module = legacy then []
    else [⟨msg_core module, details_core malias legacy, tag_core, lineno⟩]
  else if module.count '.' < 2 then
    [⟨msg_action malias, details_action module, tag_action, lineno⟩]
  else if !(("community.general.".data).isPrefixOf module)
      || ("community.network.".data).isPrefixOf module then
    [⟨msg_canonical malias module, [], tag_canonical, lineno⟩]
  else []

/-- Result of one `matchtask` call: the findings, the cache
(`self.module_aliases`) after the call, the arguments passed to
`module_loader.find_plugin_with_context` (in order), and the modules for
which the "Unable to resolve FQCN" warning was logged. -/
structure MatchOut where
  errors : List MatchError
  cache : List (Str × Str)
  calls : List Str
  warns : List Str
deriving DecidableEq, Repr

/-- `FQCNBuiltinsRule.matchtask` (fqcn.py lines 105–167).  `resolve`
embeds `module_loader.find_plugin_with_context(·).resolved_fqcn` (which may
be `None`); `module` is `task["action"]["__ansible_module_original__"]` and
`lineno` is `task["__line__"]`.  The transient `module ↦ None` assignment
of lines 116–119 is collapsed to its net effect `module ↦ module`.  In the
resolved branch the re-read `self.module_aliases[module]` of lines 124–125
yields `target` (see `matchtask_self_lookup`). -/
def matchtask (resolve : Str → Option Str) (cache : List (Str × Str))
    (module : Str) (lineno : Nat) : MatchOut :=
  match odFind module cache with
  | some malias => ⟨check module malias lineno, cache, [], []⟩
  | none =>
    match resolve module with
    | none => ⟨[], odSet module module cache, [module], [module]⟩
    | some target =>
      let c1 := odSet module target cache
      let c2 := match odFind target c1 with
        | some _ => c1
        | none => odSet target target c1
      ⟨check module target lineno, c2, [module], []⟩

/-- `FQCNBuiltinsRule.matchplay` (fqcn.py lines 169–181): `kind` is
`file.kind`, `dataKeys` are the keys of the play mapping `data`, and
`lineno` is `data[LINE_NUMBER_KEY]`. -/
def matchplay (kind : Str) (dataKeys : List Str) (lineno : Nat) : List MatchError :=
  if kind = "playbook".data then
    if dataKeys.contains "collections".data then
      [⟨msg_keyword, [], tag_keyword, lineno⟩]
    else []
  else []

/-- Evaluation of `matchtask` over a run: one call per task, threading
`self.module_aliases` through, concatenating findings, resolver calls and
warnings in order. -/
def runTasks (resolve : Str → Option Str) (cache : List (Str × Str)) :
    List (Str × Nat) → MatchOut
  | [] => ⟨[], cache, [], []⟩
  | (m, ln) :: rest =>
    let o := matchtask resolve cache m ln
    let r := runTasks resolve o.cache rest
    ⟨o.errors ++ r.errors, r.cache, o.calls ++ r.calls, o.warns ++ r.warns⟩

/-- Parsing of `fqcn[action-core]` fix parameters from the finding
(fqcn.py lines 193–198): `message.split("(")[1][:-2]` and
`details.split` at backtick, index 1.  Out-of-range Python indexing never
happens on the messages `matchtask` builds; `getD` with default `[]`
stands in for it. -/
def parse_core (message details : Str) : Str × Str :=
  (((splitOnChar '(' message).getD 1 []).dropLast.dropLast,
   (splitOnChar btk details).getD 1 [])

/-- Parsing of `fqcn[action]` fix parameters (fqcn.py lines 199–201). -/
def parse_action (message details : Str) : Str × Str :=
  ((splitOnChar btk details).getD 1 [], (splitOnChar btk message).getD 1 [])

/-- Parsing of `fqcn[canonical]` fix parameters (fqcn.py lines 202–204). -/
def parse_canonical (message : Str) : Str × Str :=
  ((splitOnChar btk message).getD 3 [], (splitOnChar btk message).getD 1 [])

/-- The `(current_action, new_action)` pair that `transform` re-derives
from a finding's formatted text (fqcn.py lines 193–204).  The final
branch is exactly the `elif match.tag == "fqcn[canonical]"` arm, which is
the only remaining fixable tag. -/
def parseFixActions (f : MatchError) : Str × Str :=
  if f.tag = tag_core then parse_core f.message f.details
  else if f.tag = tag_action then parse_action f.message f.details
  else parse_canonical f.message

/-- The rebuild loop of `transform` (fqcn.py lines 205–207): `len` times,
`popitem(False)` removes the first entry and the assignment re-inserts it
under the (possibly renamed) key.  The `Nat.succ n, []` case corresponds
to `popitem` on an empty dict, which raises in Python; it is unreachable
because the loop runs exactly `len(target_task)` times. -/
def popRebuild (current new : Str) : Nat → List (Str × α) → List (Str × α)
  | 0, t => t
  | Nat.succ _, [] => []
  | Nat.succ n, (k, v) :: rest =>
    popRebuild current new n (odSet (if k = current then new else k) v rest)

/-- `FQCNBuiltinsRule.transform` (fqcn.py lines 183–208) restricted to the
target task mapping that `self.seek(match.yaml_path, data)` returned.  The
returned Boolean is the value of `match.fixed` after the call (`True` is
assigned only at line 208, after the complete rebuild; for a non-fixable
tag the routine does nothing and the flag keeps its initial `False`). -/
def transform (f : MatchError) (task : List (Str × α)) : List (Str × α) × Bool :=
  if f.tag = tag_core ∨ f.tag = tag_action ∨ f.tag = tag_canonical then
    let pr := parseFixActions f
    (popRebuild pr.1 pr.2 task.length task, true)
  else (task, false)

/-- An instance of `FQCNBuiltinsRule`.  `module_aliases` is declared at
class level (fqcn.py line 103) and the methods only ever perform item
assignment `self.module_aliases[k] = v` — which mutates the dict that
attribute lookup found — never an attribute assignment, so no instance
acquires per-instance `module_aliases` storage.  The field `iid` merely
distinguishes instances. -/
structure FQCNInstance where
  iid : Nat
deriving DecidableEq, Repr

/-- Python attribute lookup `inst.module_aliases`: the instance
`__dict__` holds no such attribute, so lookup falls back to the single
class attribute; every instance therefore observes the same dict, whose
current state is `classAliases`. -/
def readModuleAliases (classAliases : List (Str × Str))
    (_inst : FQCNInstance) : List (Str × Str) :=
  classAliases

/-- The `DEFAULT_KINDS` table of config.py lines 38–76, in source order
(the source says: "Do not sort this list, order matters").  Literal brace
characters of the glob patterns are written with their code-point escapes.
Note the `rulebook` entry (config.py line 55) reproduces the source's
pattern exactly, including its missing closing brace. -/
def DEFAULT_KINDS : List (Str × Str) := [
  ("jinja2".data, "**/*.j2".data),
  ("jinja2".data, "**/*.j2.*".data),
  ("yaml".data, ".github/**/*.\x7byaml,yml\x7d".data),
  ("text".data, "**/templates/**/*.*".data),
  ("execution-environment".data, "**/execution-environment.yml".data),
  ("ansible-lint-config".data, "**/.ansible-lint".data),
  ("ansible-lint-config".data, "**/.config/ansible-lint.yml".data),
  ("ansible-navigator-config".data, "**/ansible-navigator.\x7byaml,yml\x7d".data),
  ("inventory".data, "**/inventory/**.\x7byaml,yml\x7d".data),
  ("requirements".data, "**/meta/requirements.\x7byaml,yml\x7d".data),
  ("galaxy".data, "**/galaxy.yml".data),
  ("reno".data, "**/releasenotes/*/*.\x7byaml,yml\x7d".data),
  ("vars".data, "**/\x7bhost_vars,group_vars,vars,defaults\x7d/**/*.\x7byaml,yml\x7d".data),
  ("tasks".data, "**/tasks/**/*.\x7byaml,yml\x7d".data),
  ("rulebook".data, "**/rulebooks/*.\x7byml,yaml".data),
  ("playbook".data, "**/playbooks/*.\x7byml,yaml\x7d".data),
  ("playbook".data, "**/*playbook*.\x7byml,yaml\x7d".data),
  ("role".data, "**/roles/*/".data),
  ("handlers".data, "**/handlers/*.\x7byaml,yml\x7d".data),
  ("test-meta".data, "**/tests/integration/targets/*/meta/main.\x7byaml,yml\x7d".data),
  ("meta".data, "**/meta/main.\x7byaml,yml\x7d".data),
  ("meta-runtime".data, "**/meta/runtime.\x7byaml,yml\x7d".data),
  ("role-arg-spec".data, "**/meta/argument_specs.\x7byaml,yml\x7d".data),
  ("yaml".data, ".config/molecule/config.\x7byaml,yml\x7d".data),
  ("requirements".data, "**/molecule/*/\x7bcollections,requirements\x7d.\x7byaml,yml\x7d".data),
  ("yaml".data, "**/molecule/*/\x7bbase,molecule\x7d.\x7byaml,yml\x7d".data),
  ("requirements".data, "**/requirements.\x7byaml,yml\x7d".data),
  ("playbook".data, "**/molecule/*/*.\x7byaml,yml\x7d".data),
  ("yaml".data, "**/\x7b.ansible-lint,.yamllint\x7d".data),
  ("changelog".data, "**/changelogs/changelog.yaml".data),
  ("yaml".data, "**/*.\x7byaml,yml\x7d".data),
  ("yaml".data, "**/.*.\x7byaml,yml\x7d".data),
  ("sanity-ignore-file".data, "**/tests/sanity/ignore-*.txt".data)]

/-- Modelled from the spec: brace-alternation expansion of a glob pattern,
with explicit fuel (every recursive call is on the tail after a closing
brace, strictly shorter, so the initial fuel of `expandBraces` is never
exhausted).  The path-classification function itself, `kind_from_path`, is
not under src/; §6 of the spec states the pattern syntax "supports
brace-alternation (`\x7ba,b,c\x7d`) and standard glob wildcards".  Each
group `\x7b...\x7d` is expanded into one alternative per comma-separated
choice; a `\x7b` with no later `\x7d` is not a group and the pattern is
kept as a literal. -/
def expandBracesAux : Nat → Str → List Str
  | 0, p => [p]
  | Nat.succ n, p =>
    match breakAt lbrace p with
    | none => [p]
    | some (pre, rest) =>
      match breakAt rbrace rest with
      | none => [p]
      | some (inside, post) =>
        (splitOnChar ',' inside).flatMap
          (fun alt => (expandBracesAux n post).map (fun q => pre ++ alt ++ q))

/-- Modelled from the spec: brace expansion with sufficient fuel. -/
def expandBraces (p : Str) : List Str := expandBracesAux (p.length + 1) p

/-- Modelled from the spec: standard glob matching on one brace-free
alternative, with explicit fuel (every recursive call decreases
`p.length + s.length`, so the initial fuel of `globMatch` is never
exhausted).  `**` matches any sequence of characters including `/` (and
`**/` also matches the empty sequence of directories), `*` matches any
sequence of non-`/` characters, `?` one non-`/` character; any other
character matches itself. -/
def globMatchAux : Nat → Str → Str → Bool
  | 0, _, _ => false
  | Nat.succ n, p, s =>
    match p, s with
    | [], rest => rest.isEmpty
    | '*' :: '*' :: '/' :: ps, t =>
      globMatchAux n ps t ||
        (match t with
         | [] => false
         | _ :: t' => globMatchAux n ('*' :: '*' :: '/' :: ps) t')
    | '*' :: '*' :: ps, t =>
      globMatchAux n ps t ||
        (match t with
         | [] => false
         | _ :: t' => globMatchAux n ('*' :: '*' :: ps) t')
    | '*' :: ps, t =>
      globMatchAux n ps t ||
        (match t with
         | [] => false
         | c :: t' => if c = '/' then false else globMatchAux n ('*' :: ps) t')
    | '?' :: ps, t =>
      (match t with
       | [] => false
       | c :: t' => if c = '/' then false else globMatchAux n ps t')
    | c :: ps, t =>
      (match t with
       | [] => false
       | c' :: t' => if c = c' then globMatchAux n ps t' else false)

/-- Modelled from the spec: glob matching with sufficient fuel. -/
def globMatch (p s : Str) : Bool := globMatchAux (p.length + s.length + 1) p s

/-- Modelled from the spec: a pattern matches a path when one of its
brace-alternation expansions glob-matches it. -/
def patMatch (p s : Str) : Bool := (expandBraces p).any (fun q => globMatch q s)

/-- Modelled from the spec: a pattern is well-formed under the stated
syntax (brace-alternation plus glob wildcards) when every `\x7b` is closed
by a later `\x7d` with no nested `\x7b` inside the group.  Fueled like
`expandBracesAux`. -/
def braceWFAux : Nat → Str → Bool
  | 0, _ => true
  | Nat.succ n, p =>
    match breakAt lbrace p with
    | none => true
    | some (_, rest) =>
      match breakAt rbrace rest with
      | none => false
      | some (inside, post) => !(inside.contains lbrace) && braceWFAux n post

/-- Modelled from the spec: pattern well-formedness with sufficient fuel. -/
def braceWF (p : Str) : Bool := braceWFAux (p.length + 1) p

/-- Modelled from the spec: classification of a path against an ordered
kind table, first match wins (spec §4.1 `classify` and §6; the source
table consumed read-only is `DEFAULT_KINDS`). -/
def classifyPath (kinds : List (Str × Str)) (path : Str) : Option Str :=
  (kinds.find? (fun e => patMatch e.2 path)).map Prod.fst

/-- Looking up a key just assigned yields the assigned value. -/
theorem odFind_odSet_self (k : Str) (v : α) :
    ∀ t : List (Str × α), odFind k (odSet k v t) = some v := by
  intro t
  induction t with
  | nil => simp [odSet, odFind]
  | cons p rest ih =>
    obtain ⟨k', v'⟩ := p
    by_cases h : k' = k
    · subst h
      simp [odSet, odFind]
    · simp [odSet, odFind, h, ih]

/-- Assignment to one key leaves lookups of other keys unchanged. -/
theorem odFind_odSet_ne {k k' : Str} (h : k' ≠ k) (v : α) :
    ∀ t : List (Str × α), odFind k (odSet k' v t) = odFind k t := by
  intro t
  induction t with
  | nil => simp [odSet, odFind, h]
  | cons p rest ih =>
    obtain ⟨k'', v''⟩ := p
    by_cases h2 : k'' = k'
    · subst h2
      simp [odSet, odFind, h]
    · by_cases h3 : k'' = k
      · subst h3
        simp [odSet, odFind, h2]
      · simp [odSet, odFind, h2, h3, ih]

/-- Assignment of an absent key appends the pair at the end. -/
theorem odSet_append (k : Str) (v : α) :
    ∀ t : List (Str × α), k ∉ odKeys t → odSet k v t = t ++ [(k, v)] := by
  intro t
  induction t with
  | nil => intro _; rfl
  | cons p rest ih =>
    obtain ⟨k', v'⟩ := p
    intro h
    rw [show odKeys ((k', v') :: rest) = k' :: odKeys rest from rfl] at h
    have h1 : k' ≠ k := by
      intro he
      subst he
      exact h (List.mem_cons_self _ _)
    have h2 : k ∉ odKeys rest := fun hm => h (List.mem_cons_of_mem k' hm)
    simp [odSet, h1, ih h2]

/-- The result of `splitOnChar` is never the empty list. -/
theorem splitOnChar_ne_nil (c : Char) : ∀ s : Str, splitOnChar c s ≠ [] := by
  intro s
  cases s with
  | nil => simp [splitOnChar]
  | cons a rest =>
    simp only [splitOnChar]
    split
    · simp
    · split <;> simp

/-- Splitting a string that does not contain the separator keeps it whole. -/
theorem splitOnChar_not_mem {c : Char} : ∀ {s : Str}, c ∉ s → splitOnChar c s = [s] := by
  intro s
  induction s with
  | nil => intro _; rfl
  | cons a rest ih =>
    intro h
    have ha : ¬(a = c) := fun he => h (he ▸ List.mem_cons_self a rest)
    have hr : c ∉ rest := fun hm => h (List.mem_cons_of_mem a hm)
    simp only [splitOnChar, ih hr]
    simp [ha]

/-- Splitting past a separator-free head segment peels it off. -/
theorem splitOnChar_sep {c : Char} :
    ∀ {pre rest : Str}, c ∉ pre →
      splitOnChar c (pre ++ c :: rest) = pre :: splitOnChar c rest := by
  intro pre
  induction pre with
  | nil =>
    intro rest _
    show splitOnChar c (c :: rest) = [] :: splitOnChar c rest
    simp only [splitOnChar]
    rcases h : splitOnChar c rest with _ | ⟨s, ss⟩
    · exact absurd h (splitOnChar_ne_nil c rest)
    · simp
  | cons a pre ih =>
    intro rest hnm
    have ha : ¬(a = c) := fun he => hnm (he ▸ List.mem_cons_self a pre)
    have hp : c ∉ pre := fun hm => hnm (List.mem_cons_of_mem a hm)
    show splitOnChar c (a :: (pre ++ c :: rest)) = (a :: pre) :: splitOnChar c rest
    simp only [splitOnChar, ih hp]
    simp [ha]

/-- Second element of a split with two separator-free leading segments. -/
theorem splitOnChar_getD_one {c : Char} {p mid rest : Str} (hp : c ∉ p) (hm : c ∉ mid) :
    (splitOnChar c (p ++ c :: (mid ++ c :: rest))).getD 1 [] = mid := by
  rw [splitOnChar_sep hp, splitOnChar_sep hm]
  rfl

/-- Second element of a split whose tail contains no further separator. -/
theorem splitOnChar_getD_one_tail {c : Char} {p rest : Str} (hp : c ∉ p) (hr : c ∉ rest) :
    (splitOnChar c (p ++ c :: rest)).getD 1 [] = rest := by
  rw [splitOnChar_sep hp, splitOnChar_not_mem hr]
  rfl

/-- Fourth element of a split with four separator-free leading segments. -/
theorem splitOnChar_getD_three {c : Char} {p a q b rest : Str}
    (hp : c ∉ p) (ha : c ∉ a) (hq : c ∉ q) (hb : c ∉ b) :
    (splitOnChar c (p ++ c :: (a ++ c :: (q ++ c :: (b ++ c :: rest))))).getD 3 [] = b := by
  rw [splitOnChar_sep hp, splitOnChar_sep ha, splitOnChar_sep hq, splitOnChar_sep hb]
  rfl

/-- Dropping the final two characters recovers the string before them. -/
theorem dropLast_two (s : Str) (x y : Char) :
    ((s ++ [x, y]).dropLast).dropLast = s := by
  have h : s ++ [x, y] = (s ++ [x]) ++ [y] := by simp
  rw [h, List.dropLast_concat, List.dropLast_concat]

/-- The `fqcn[action-core]` message decomposed around its parenthesis. -/
theorem msg_core_shape (m : Str) :
    msg_core m = "Use FQCN for builtin module actions ".data ++ '(' :: (m ++ [')', '.']) := by
  rw [msg_core]
  rw [show "Use FQCN for builtin module actions (".data
      = "Use FQCN for builtin module actions ".data ++ ['('] from by decide]
  rw [show ").".data = [')', '.'] from by decide]
  simp

/-- The `fqcn[action-core]` details decomposed around their backticks. -/
theorem details_core_shape (a l : Str) :
    details_core a l
      = "Use ".data ++ btk :: (a ++ btk :: (" or `".data ++ (l ++ "` instead.".data))) := by
  rw [details_core]
  rw [show "Use `".data = "Use ".data ++ [btk] from by decide]
  rw [show "` or `".data = btk :: " or `".data from by decide]
  simp

/-- The fix parameters that `transform` re-derives from an
`fqcn[action-core]` finding are the module and alias that `matchtask`
embedded, provided the module contains no opening parenthesis and the
alias contains no backtick. -/
theorem parse_core_roundtrip {m a : Str} (l : Str)
    (hp : '(' ∉ m) (hba : btk ∉ a) :
    parse_core (msg_core m) (details_core a l) = (m, a) := by
  rw [parse_core, msg_core_shape, details_core_shape]
  rw [splitOnChar_getD_one_tail (by decide)
    (by
      intro hm
      rcases List.mem_append.mp hm with h | h
      · exact hp h
      · simp at h)]
  rw [splitOnChar_getD_one (by decide) hba]
  rw [dropLast_two]

/-- The `fqcn[action]` message decomposed around its backticks. -/
theorem msg_action_shape (a : Str) :
    msg_action a = "Use FQCN for module actions, such ".data ++ btk :: (a ++ btk :: ".".data) := by
  rw [msg_action]
  rw [show "Use FQCN for module actions, such `".data
      = "Use FQCN for module actions, such ".data ++ [btk] from by decide]
  rw [show "`.".data = btk :: ".".data from by decide]
  simp

/-- The `fqcn[action]` details decomposed around their backticks. -/
theorem details_action_shape (m : Str) :
    details_action m = "Action ".data ++ btk :: (m ++ btk :: " is not FQCN.".data) := by
  rw [details_action]
  rw [show "Action `".data = "Action ".data ++ [btk] from by decide]
  rw [show "` is not FQCN.".data = btk :: " is not FQCN.".data from by decide]
  simp

/-- The fix parameters that `transform` re-derives from an `fqcn[action]`
finding are the module and alias that `matchtask` embedded, provided
neither contains a backtick. -/
theorem parse_action_roundtrip {m a : Str} (hbm : btk ∉ m) (hba : btk ∉ a) :
    parse_action (msg_action a) (details_action m) = (m, a) := by
  rw [parse_action, msg_action_shape, details_action_shape]
  rw [splitOnChar_getD_one (by decide) hbm]
  rw [splitOnChar_getD_one (by decide) hba]

/-- The `fqcn[canonical]` message decomposed around its backticks. -/
theorem msg_canonical_shape (a m : Str) :
    msg_canonical a m = "You should use canonical module name ".data
      ++ btk :: (a ++ btk :: (" instead of ".data ++ btk :: (m ++ btk :: ".".data))) := by
  rw [msg_canonical]
  rw [show "You should use canonical module name `".data
      = "You should use canonical module name ".data ++ [btk] from by decide]
  rw [show "` instead of `".data = btk :: (" instead of ".data ++ [btk]) from by decide]
  rw [show "`.".data = btk :: ".".data from by decide]
  simp

/-- The fix parameters that `transform` re-derives from an
`fqcn[canonical]` finding are the module and alias that `matchtask`
embedded, provided neither contains a backtick. -/
theorem parse_canonical_roundtrip {m a : Str} (hbm : btk ∉ m) (hba : btk ∉ a) :
    parse_canonical (msg_canonical a m) = (m, a) := by
  rw [parse_canonical, msg_canonical_shape]
  rw [splitOnChar_getD_three (by decide) hba (by decide) hbm]
  rw [splitOnChar_getD_one (by decide) hba]

/-- A module equal to its cached resolution produces no finding. -/
theorem check_self (a : Str) (ln : Nat) : check a a ln = [] := by
  simp [check]

/-- The resolver behaves like `resolved_fqcn`: a name it returns is a fixed
point (resolving an already fully-qualified canonical name yields that
name itself). -/
def ResolveIdem (resolve : Str → Option Str) : Prop :=
  ∀ x y, resolve x = some y → resolve y = some y

/-- Invariant of `module_aliases`: every cached value is itself cached as a
fixed point, and every entry either came from the resolver or maps a name
to itself. -/
def CacheInv (resolve : Str → Option Str) (c : List (Str × Str)) : Prop :=
  ∀ k v, odFind k c = some v → odFind v c = some v ∧ (resolve k = some v ∨ v = k)

/-- The class-level initial cache satisfies the invariant for any resolver. -/
theorem cacheInv_init (resolve : Str → Option Str) :
    CacheInv resolve module_aliases_init := by
  intro k v h
  simp only [module_aliases_init, odFind] at h
  split at h
  · rename_i heq
    have hv : v = "block/always/rescue".data := (Option.some.inj h).symm
    subst hv
    subst heq
    exact ⟨by simp [module_aliases_init, odFind], Or.inr rfl⟩
  · cases h

/-- After a successful resolution of an uncached module, the cache maps the
module to the resolved target (this is the re-read of
`self.module_aliases[module]` at fqcn.py lines 124–125). -/
theorem matchtask_self_lookup {resolve : Str → Option Str} {c : List (Str × Str)}
    {module : Str} {ln : Nat} {t : Str}
    (hc : odFind module c = none) (hr : resolve module = some t) :
    odFind module (matchtask resolve c module ln).cache = some t := by
  rcases ht : odFind t (odSet module t c) with _ | w
  · have htm : t ≠ module := by
      intro he
      rw [he, odFind_odSet_self] at ht
      cases ht
    simp [matchtask, hc, hr, ht]
    rw [odFind_odSet_ne htm, odFind_odSet_self]
  · simp [matchtask, hc, hr, ht]
    rw [odFind_odSet_self]

/-- The resolver is called exactly when the module is not yet cached. -/
theorem matchtask_calls (resolve : Str → Option Str) (c : List (Str × Str))
    (module : Str) (ln : Nat) :
    (matchtask resolve c module ln).calls
      = if (odFind module c).isSome then [] else [module] := by
  rcases hc : odFind module c with _ | a
  · rcases hr : resolve module with _ | t
    · simp [matchtask, hc, hr]
    · rcases ht : odFind t (odSet module t c) <;> simp [matchtask, hc, hr, ht]
  · simp [matchtask, hc]

/-- After any `matchtask` call its module is cached. -/
theorem matchtask_cached_after (resolve : Str → Option Str) (c : List (Str × Str))
    (module : Str) (ln : Nat) :
    (odFind module (matchtask resolve c module ln).cache).isSome := by
  rcases hc : odFind module c with _ | a
  · rcases hr : resolve module with _ | t
    · simp [matchtask, hc, hr, odFind_odSet_self]
    · rw [matchtask_self_lookup hc hr]
      rfl
  · simp [matchtask, hc, hc]

/-- Existing cache entries survive a `matchtask` call unchanged. -/
theorem matchtask_mono {resolve : Str → Option Str} {c : List (Str × Str)}
    {module : Str} {ln : Nat} {x : Str} {v : Str} (h : odFind x c = some v) :
    odFind x (matchtask resolve c module ln).cache = some v := by
  rcases hc : odFind module c with _ | a
  · have hxm : module ≠ x := by
      intro he
      subst he
      rw [h] at hc
      cases hc
    rcases hr : resolve module with _ | t
    · simp [matchtask, hc, hr]
      rw [odFind_odSet_ne hxm]
      exact h
    · have h1 : odFind x (odSet module t c) = some v := by
        rw [odFind_odSet_ne hxm]
        exact h
      rcases ht : odFind t (odSet module t c) with _ | w
      · have htx : t ≠ x := by
          intro he
          subst he
          rw [h1] at ht
          cases ht
        simp [matchtask, hc, hr, ht]
        rw [odFind_odSet_ne htx]
        exact h1
      · simp [matchtask, hc, hr, ht]
        exact h1
  · simpa [matchtask, hc] using h

/-- When `matchtask` produced a finding, the findings are `check module
malias` for the alias now cached for the module, and that alias is itself
cached as a fixed point. -/
theorem matchtask_found {resolve : Str → Option Str} {c : List (Str × Str)}
    {module : Str} {ln : Nat}
    (hres : ResolveIdem resolve) (hinv : CacheInv resolve c) {f : MatchError}
    (hf : f ∈ (matchtask resolve c module ln).errors) :
    ∃ malias, (matchtask resolve c module ln).errors = check module malias ln ∧
      odFind module (matchtask resolve c module ln).cache = some malias ∧
      odFind malias (matchtask resolve c module ln).cache = some malias := by
  rcases hc : odFind module c with _ | a
  · rcases hr : resolve module with _ | t
    · simp [matchtask, hc, hr] at hf
    · refine ⟨t, ?_, matchtask_self_lookup hc hr, ?_⟩
      · rcases ht : odFind t (odSet module t c) <;> simp [matchtask, hc, hr, ht]
      · rcases ht : odFind t (odSet module t c) with _ | w
        · have htm : t ≠ module := by
            intro he
            rw [he, odFind_odSet_self] at ht
            cases ht
          simp [matchtask, hc, hr, ht]
          rw [odFind_odSet_self]
        · have hw : w = t := by
            by_cases hm : t = module
            · rw [hm, odFind_odSet_self] at ht
              rw [hm]
              exact (Option.some.inj ht).symm
            · have ht' : odFind t c = some w := by
                rw [odFind_odSet_ne (fun he => hm he.symm)] at ht
                exact ht
              obtain ⟨_, hd⟩ := hinv t w ht'
              rcases hd with hd | hd
              · rw [hres module t hr] at hd
                exact (Option.some.inj hd).symm
              · exact hd
          subst hw
          simp [matchtask, hc, hr, ht]
  · obtain ⟨h1, _⟩ := hinv module a hc
    refine ⟨a, by simp [matchtask, hc], by simp [matchtask, hc, hc], ?_⟩
    simp only [matchtask, hc]
    exact h1

/-- On a finding carrying `tag_core`, `transform` parses with the
`fqcn[action-core]` arm. -/
theorem parseFixActions_core (msg det : Str) (ln : Nat) :
    parseFixActions ⟨msg, det, tag_core, ln⟩ = parse_core msg det := by
  simp [parseFixActions]

/-- On a finding carrying `tag_action`, `transform` parses with the
`fqcn[action]` arm. -/
theorem parseFixActions_action (msg det : Str) (ln : Nat) :
    parseFixActions ⟨msg, det, tag_action, ln⟩ = parse_action msg det := by
  have h1 : ¬(tag_action = tag_core) := by decide
  simp [parseFixActions, h1]

/-- On a finding carrying `tag_canonical`, `transform` parses with the
`fqcn[canonical]` arm. -/
theorem parseFixActions_canonical (msg det : Str) (ln : Nat) :
    parseFixActions ⟨msg, det, tag_canonical, ln⟩ = parse_canonical msg := by
  have h1 : ¬(tag_canonical = tag_core) := by decide
  have h2 : ¬(tag_canonical = tag_action) := by decide
  simp [parseFixActions, h1, h2]

/-- For any finding produced by `check`, the fix-parameter parsing of
`transform` recovers exactly the module and its alias, provided the module
contains no opening parenthesis and neither name contains a backtick. -/
theorem check_mem_parse {module malias : Str} {ln : Nat} {f : MatchError}
    (hf : f ∈ check module malias ln)
    (hp : '(' ∉ module) (hbm : btk ∉ module) (hba : btk ∉ malias) :
    parseFixActions f = (module, malias) := by
  simp only [check] at hf
  split at hf
  · simp at hf
  · split at hf
    · split at hf
      · simp at hf
      · simp only [List.mem_singleton] at hf
        subst hf
        rw [parseFixActions_core]
        exact parse_core_roundtrip _ hp hba
    · split at hf
      · simp only [List.mem_singleton] at hf
        subst hf
        rw [parseFixActions_action]
        exact parse_action_roundtrip hbm hba
      · split at hf
        · simp only [List.mem_singleton] at hf
          subst hf
          rw [parseFixActions_canonical]
          exact parse_canonical_roundtrip hbm hba
        · simp at hf

/-- Keys of a concatenation of ordered dictionaries. -/
theorem odKeys_append (t u : List (Str × α)) :
    odKeys (t ++ u) = odKeys t ++ odKeys u := by
  simp [odKeys]

/-- Invariant step for the rebuild loop of `transform`: starting from the
remaining original entries followed by the already re-inserted ones, the
loop ends with the processed entries followed by the renamed remainder. -/
theorem popRebuild_go {α : Type} (cur new : Str) :
    ∀ rem proc : List (Str × α),
      (odKeys rem).Nodup →
      new ∉ odKeys rem →
      (∀ k ∈ odKeys rem, k ∉ odKeys proc) →
      (new ∈ odKeys proc → cur ∉ odKeys rem) →
      popRebuild cur new rem.length (rem ++ proc)
        = proc ++ rem.map (fun p => (if p.1 = cur then new else p.1, p.2)) := by
  intro rem
  induction rem with
  | nil =>
    intro proc _ _ _ _
    simp [popRebuild]
  | cons p rest ih =>
    intro proc h1 h2 h3 h4
    obtain ⟨k, v⟩ := p
    rw [show odKeys ((k, v) :: rest) = k :: odKeys rest from rfl] at h1 h2 h3 h4
    have h1' : (odKeys rest).Nodup := (List.nodup_cons.mp h1).2
    have hk_rest : k ∉ odKeys rest := (List.nodup_cons.mp h1).1
    have h2' : new ∉ odKeys rest := fun hm => h2 (List.mem_cons_of_mem _ hm)
    have hkne : k ≠ new := fun he => h2 (he ▸ List.mem_cons_self _ _)
    have hren : (if k = cur then new else k) ∉ odKeys (rest ++ proc) := by
      rw [odKeys_append]
      by_cases hkc : k = cur
      · rw [if_pos hkc]
        intro hm
        rcases List.mem_append.mp hm with hm | hm
        · exact h2' hm
        · exact (h4 hm) (hkc ▸ List.mem_cons_self _ _)
      · rw [if_neg hkc]
        intro hm
        rcases List.mem_append.mp hm with hm | hm
        · exact hk_rest hm
        · exact h3 k (List.mem_cons_self _ _) hm
    have hstep : popRebuild cur new ((k, v) :: rest).length (((k, v) :: rest) ++ proc)
        = popRebuild cur new rest.length
            (rest ++ (proc ++ [((if k = cur then new else k), v)])) := by
      rw [List.cons_append]
      rw [show popRebuild cur new ((k, v) :: rest).length ((k, v) :: (rest ++ proc))
          = popRebuild cur new rest.length
              (odSet (if k = cur then new else k) v (rest ++ proc)) from rfl]
      rw [odSet_append _ _ _ hren, List.append_assoc]
    have hkeys2 : odKeys (proc ++ [((if k = cur then new else k), v)])
        = odKeys proc ++ [if k = cur then new else k] := by
      rw [odKeys_append]
      rfl
    have h3' : ∀ k' ∈ odKeys rest,
        k' ∉ odKeys (proc ++ [((if k = cur then new else k), v)]) := by
      intro k' hk' hm
      rw [hkeys2] at hm
      rcases List.mem_append.mp hm with hm | hm
      · exact h3 k' (List.mem_cons_of_mem _ hk') hm
      · have hm' : k' = (if k = cur then new else k) := List.mem_singleton.mp hm
        by_cases hkc : k = cur
        · rw [if_pos hkc] at hm'
          subst hm'
          exact h2' hk'
        · rw [if_neg hkc] at hm'
          subst hm'
          exact hk_rest hk'
    have h4' : new ∈ odKeys (proc ++ [((if k = cur then new else k), v)])
        → cur ∉ odKeys rest := by
      intro hm
      rw [hkeys2] at hm
      rcases List.mem_append.mp hm with hm | hm
      · intro hcr
        exact (h4 hm) (List.mem_cons_of_mem _ hcr)
      · have hm' : new = (if k = cur then new else k) := List.mem_singleton.mp hm
        by_cases hkc : k = cur
        · intro hcr
          exact hk_rest (hkc ▸ hcr)
        · rw [if_neg hkc] at hm'
          exact absurd hm'.symm hkne
    rw [hstep, ih _ h1' h2' h3' h4']
    simp

/-- The rebuild loop of `transform` renames exactly the matched key,
keeping every value and the original order, when the task mapping has
distinct keys and the new key is not already present. -/
theorem popRebuild_map {α : Type} (cur new : Str) (t : List (Str × α))
    (hnd : (odKeys t).Nodup) (hnew : new ∉ odKeys t) :
    popRebuild cur new t.length t
      = t.map (fun p => (if p.1 = cur then new else p.1, p.2)) := by
  have h := popRebuild_go cur new t [] hnd hnew
    (by
      intro k _ hm
      simp [odKeys] at hm)
    (by
      intro hm
      simp [odKeys] at hm)
  simpa using h

/-- Cache entries survive a whole run unchanged. -/
theorem runTasks_mono {resolve : Str → Option Str} {X v : Str} :
    ∀ {tasks : List (Str × Nat)} {c : List (Str × Str)},
      odFind X c = some v → odFind X (runTasks resolve c tasks).cache = some v := by
  intro tasks
  induction tasks with
  | nil =>
    intro c h
    simpa [runTasks] using h
  | cons t ts ih =>
    intro c h
    obtain ⟨m, ln⟩ := t
    simp only [runTasks]
    exact ih (matchtask_mono h)

/-- Once a reference is cached, the rest of the run never resolves it
again. -/
theorem runTasks_no_call_of_cached {resolve : Str → Option Str} {X : Str} :
    ∀ {tasks : List (Str × Nat)} {c : List (Str × Str)},
      (odFind X c).isSome → (runTasks resolve c tasks).calls.count X = 0 := by
  intro tasks
  induction tasks with
  | nil =>
    intro c _
    simp [runTasks]
  | cons t ts ih =>
    intro c h
    obtain ⟨m, ln⟩ := t
    simp only [runTasks]
    rw [List.count_append]
    have h1 : (matchtask resolve c m ln).calls.count X = 0 := by
      rw [matchtask_calls]
      by_cases hm : m = X
      · subst hm
        rw [if_pos h]
        rfl
      · split
        · rfl
        · rw [List.count_eq_zero.mpr ?_]
          intro hx
          rw [List.mem_singleton] at hx
          exact hm hx.symm
    rw [h1]
    have h2 : (odFind X (matchtask resolve c m ln).cache).isSome := by
      obtain ⟨w, hw⟩ := Option.isSome_iff_exists.mp h
      rw [matchtask_mono hw]
      rfl
    simpa using ih h2

/-- Across one whole run, each reference string is passed to the resolver
at most once. -/
theorem runTasks_calls_at_most_once (resolve : Str → Option Str) (X : Str) :
    ∀ (tasks : List (Str × Nat)) (c : List (Str × Str)),
      (runTasks resolve c tasks).calls.count X ≤ 1 := by
  intro tasks
  induction tasks with
  | nil =>
    intro c
    simp [runTasks]
  | cons t ts ih =>
    intro c
    obtain ⟨m, ln⟩ := t
    by_cases hX : (odFind X c).isSome
    · rw [runTasks_no_call_of_cached hX]
      omega
    · simp only [runTasks]
      rw [List.count_append]
      by_cases hm : m = X
      · subst hm
        have h1 : (matchtask resolve c m ln).calls.count m = 1 := by
          rw [matchtask_calls, if_neg hX]
          simp
        rw [h1]
        have h2 := matchtask_cached_after resolve c m ln
        rw [runTasks_no_call_of_cached h2]
      · have h1 : (matchtask resolve c m ln).calls.count X = 0 := by
          rw [matchtask_calls]
          split
          · rfl
          · rw [List.count_eq_zero.mpr ?_]
            intro hx
            rw [List.mem_singleton] at hx
            exact hm hx.symm
        rw [h1]
        simpa using ih (matchtask resolve c m ln).cache

/-- A concrete resolver for witnesses: `yum` resolves to
`ansible.builtin.yum`, every other name to itself. -/
def rYum : Str → Option Str :=
  fun x => if x = "yum".data then some "ansible.builtin.yum".data else some x

/-- The witness resolver returns only fixed points. -/
theorem rYum_idem : ResolveIdem rYum := by
  intro x y h
  by_cases hx : x = "yum".data
  · simp only [rYum] at h
    rw [if_pos hx] at h
    have hy : "ansible.builtin.yum".data = y := Option.some.inj h
    rw [← hy]
    decide
  · simp only [rYum] at h
    rw [if_neg hx] at h
    have hy : x = y := Option.some.inj h
    subst hy
    simp only [rYum]
    rw [if_neg hx]

/-- A concrete resolver for witnesses: only `ping` resolves. -/
def rPing : Str → Option Str :=
  fun x => if x = "ping".data then some "ansible.builtin.ping".data else none

/-- A concrete resolver for witnesses: nothing resolves. -/
def rNone : Str → Option Str := fun _ => none

/-- A concrete resolver for the C4 evaluation: `community.network.foo`
resolves to a different canonical name. -/
def rNetFoo : Str → Option Str :=
  fun x => if x = "community.network.foo".data
    then some "community.netcommon.foo".data else none

/-- On a cached module the findings are those of `check` against the
cached alias. -/
theorem matchtask_errors_of_cached {resolve : Str → Option Str}
    {c : List (Str × Str)} {module malias : Str} {ln : Nat}
    (h : odFind module c = some malias) :
    (matchtask resolve c module ln).errors = check module malias ln := by
  simp [matchtask, h]

/-- C1: Fix idempotence.  When `matchtask` has produced (and `transform`
has fixed) a finding of one of the fqcn tags, re-running `matchtask` on
the fixed document — whose action key is now the new action name the fix
installed — with the rule's post-run cache yields zero findings (in
particular zero findings with the previously fixed tag), because the
renamed action key now equals its cached canonical resolution.  The
resolver is assumed to return fixed points (`resolved_fqcn` of a canonical
name is itself), the cache satisfies its invariant, and the module and
resolved names contain no parenthesis or backtick (true of every real
module name). -/
theorem fqcn_fix_idempotent (resolve : Str → Option Str) (c : List (Str × Str))
    (module : Str) (ln ln' : Nat) (f : MatchError)
    (hres : ResolveIdem resolve) (hinv : CacheInv resolve c)
    (hp : '(' ∉ module) (hbm : btk ∉ module)
    (hbc : ∀ v, odFind module (matchtask resolve c module ln).cache = some v → btk ∉ v)
    (hf : f ∈ (matchtask resolve c module ln).errors) :
    (matchtask resolve (matchtask resolve c module ln).cache
        (parseFixActions f).2 ln').errors = [] := by
  obtain ⟨malias, herr, hm, ha⟩ := matchtask_found hres hinv hf
  have hba : btk ∉ malias := hbc malias hm
  have hpf : parseFixActions f = (module, malias) :=
    check_mem_parse (herr ▸ hf) hp hbm hba
  rw [hpf]
  show (matchtask resolve (matchtask resolve c module ln).cache malias ln').errors = []
  rw [matchtask_errors_of_cached ha, check_self]

/-- The `fqcn[action-core]` finding `matchtask` produces for `yum` at
line 7. -/
def mErrYum : MatchError :=
  ⟨msg_core "yum".data,
   details_core "ansible.builtin.yum".data "ansible.legacy.yum".data,
   tag_core, 7⟩

/-- Witness for C1 at the concrete input `yum`. -/
theorem fqcn_fix_idempotent_witness :
    mErrYum ∈ (matchtask rYum module_aliases_init "yum".data 7).errors ∧
    (matchtask rYum (matchtask rYum module_aliases_init "yum".data 7).cache
        (parseFixActions mErrYum).2 8).errors = [] := by
  constructor
  · decide
  · exact fqcn_fix_idempotent rYum module_aliases_init "yum".data 7 8 mErrYum
      rYum_idem (cacheInv_init rYum) (by decide) (by decide)
      (fun v hv => by
        have he : odFind "yum".data
            (matchtask rYum module_aliases_init "yum".data 7).cache
            = some "ansible.builtin.yum".data := by decide
        rw [he] at hv
        have hv2 : "ansible.builtin.yum".data = v := Option.some.inj hv
        rw [← hv2]
        decide)
      (by decide)

/-- C2: Frame property of the `fqcn[action-core]` fix.  On a task mapping
(with distinct keys, the new name not already among them), `transform`
rebuilds the mapping so that exactly the offending key is renamed to the
new action name while every other key keeps its value and the relative
order of all keys is unchanged (the result is pointwise the rename map of
the original); the finding's fixed flag is `true` together with the
completed rebuild. -/
theorem transform_core_frame {α : Type} (module malias : Str) (ln : Nat)
    (task : List (Str × α))
    (hp : '(' ∉ module) (hba : btk ∉ malias)
    (hnd : (odKeys task).Nodup) (hnew : malias ∉ odKeys task) :
    transform ⟨msg_core module,
        details_core malias
          (replaceFirst "ansible.builtin.".data "ansible.legacy.".data malias),
        tag_core, ln⟩ task
      = (task.map (fun p => (if p.1 = module then malias else p.1, p.2)), true) := by
  have hpf : parseFixActions ⟨msg_core module,
      details_core malias
        (replaceFirst "ansible.builtin.".data "ansible.legacy.".data malias),
      tag_core, ln⟩ = (module, malias) := by
    rw [parseFixActions_core]
    exact parse_core_roundtrip _ hp hba
  simp only [transform, hpf]
  rw [if_pos (Or.inl True.intro)]
  rw [popRebuild_map module malias task hnd hnew]

/-- Witness for C2 at the concrete task `{name: ..., shell: ...}`. -/
theorem transform_core_frame_witness :
    ((odKeys ([("name".data, 0), ("shell".data, 1)] : List (Str × Nat))).Nodup) ∧
    transform ⟨msg_core "shell".data,
        details_core "ansible.builtin.shell".data
          (replaceFirst "ansible.builtin.".data "ansible.legacy.".data
            "ansible.builtin.shell".data),
        tag_core, 3⟩ ([("name".data, 0), ("shell".data, 1)] : List (Str × Nat))
      = ([("name".data, 0), ("ansible.builtin.shell".data, 1)], true) := by
  constructor
  · decide
  · rw [transform_core_frame "shell".data "ansible.builtin.shell".data 3
      ([("name".data, 0), ("shell".data, 1)] : List (Str × Nat))
      (by decide) (by decide) (by decide) (by decide)]
    decide

/-- C3 (amended): within one run the resolver is invoked at most once per
distinct reference string (zero times when the string is already cached,
for example the pre-seeded `block/always/rescue` entry or a name earlier
inserted as a resolution target), and a cached resolution never changes
for the rest of the run, so every occurrence after the first is served the
identical cached value. -/
theorem resolution_at_most_once (resolve : Str → Option Str)
    (c : List (Str × Str)) (tasks : List (Str × Nat)) (X : Str) :
    (runTasks resolve c tasks).calls.count X ≤ 1 ∧
    (∀ v, odFind X c = some v →
      odFind X (runTasks resolve c tasks).cache = some v) :=
  ⟨runTasks_calls_at_most_once resolve X tasks c, fun _ hv => runTasks_mono hv⟩

/-- Witness for the amended C3 on a concrete two-task run. -/
theorem resolution_at_most_once_witness :
    (runTasks rYum module_aliases_init
        [("yum".data, 1), ("yum".data, 2)]).calls.count "yum".data ≤ 1 ∧
    odFind "block/always/rescue".data
        (runTasks rYum module_aliases_init [("yum".data, 1), ("yum".data, 2)]).cache
      = some "block/always/rescue".data :=
  ⟨(resolution_at_most_once rYum module_aliases_init
      [("yum".data, 1), ("yum".data, 2)] "yum".data).1,
   (resolution_at_most_once rYum module_aliases_init
      [("yum".data, 1), ("yum".data, 2)] "block/always/rescue".data).2 _ (by decide)⟩

/-- C3 counterexample: the reference string `block/always/rescue` occurs
in two task matches of one run, yet the resolver is invoked zero times for
it — not exactly once — because the string is pre-seeded in the cache. -/
theorem resolution_exactly_once_counterexample :
    (([("block/always/rescue".data, 1), ("block/always/rescue".data, 2)]
        : List (Str × Nat)).map Prod.fst).count "block/always/rescue".data = 2 ∧
    ¬((runTasks rYum module_aliases_init
        [("block/always/rescue".data, 1), ("block/always/rescue".data, 2)]).calls.count
          "block/always/rescue".data = 1) := by
  decide

/-- C4 evaluation at the failing input: for a task whose action
`community.network.foo` has three dotted segments, begins with
`community.network.`, and resolves to the different canonical name
`community.netcommon.foo`, `matchtask` does emit an `fqcn[canonical]`
finding — the operator precedence of fqcn.py line 156–158 (`not a or b`
is `(not a) or b`) defeats the intended `community.network.` exclusion
that the adjacent TODO comment describes. -/
theorem community_network_not_excluded :
    (matchtask rNetFoo module_aliases_init
        "community.network.foo".data 1).errors.map MatchError.tag
      = [tag_canonical] ∧
    ("community.network.".data).isPrefixOf "community.network.foo".data = true := by
  decide

/-- C5: an unqualified `yum` that resolves to `ansible.builtin.yum` and is
not yet cached yields exactly one finding, tagged `fqcn[action-core]`,
whose details suggest `ansible.builtin.yum` or `ansible.legacy.yum` as
replacements (both names occur verbatim in the details text). -/
theorem yum_unqualified_action_core (resolve : Str → Option Str)
    (c : List (Str × Str)) (ln : Nat)
    (hc : odFind "yum".data c = none)
    (hr : resolve "yum".data = some "ansible.builtin.yum".data) :
    (matchtask resolve c "yum".data ln).errors
      = [⟨msg_core "yum".data,
          details_core "ansible.builtin.yum".data "ansible.legacy.yum".data,
          tag_core, ln⟩] ∧
    List.IsInfix "ansible.builtin.yum".data
      (details_core "ansible.builtin.yum".data "ansible.legacy.yum".data) ∧
    List.IsInfix "ansible.legacy.yum".data
      (details_core "ansible.builtin.yum".data "ansible.legacy.yum".data) := by
  refine ⟨?_, by decide, by decide⟩
  have hcheck : check "yum".data "ansible.builtin.yum".data ln
      = [⟨msg_core "yum".data,
          details_core "ansible.builtin.yum".data "ansible.legacy.yum".data,
          tag_core, ln⟩] := by
    simp only [check]
    rw [if_neg (by decide), if_pos (by decide), if_neg (by decide)]
    rw [show replaceFirst "ansible.builtin.".data "ansible.legacy.".data
        "ansible.builtin.yum".data = "ansible.legacy.yum".data from by decide]
  rcases ht : odFind "ansible.builtin.yum".data
      (odSet "yum".data "ansible.builtin.yum".data c) with _ | w <;>
    simp [matchtask, hc, hr, ht, hcheck]

/-- Witness for C5 with a concrete resolver and the initial cache. -/
theorem yum_unqualified_action_core_witness :
    odFind "yum".data module_aliases_init = none ∧
    (matchtask rYum module_aliases_init "yum".data 7).errors
      = [⟨msg_core "yum".data,
          details_core "ansible.builtin.yum".data "ansible.legacy.yum".data,
          tag_core, 7⟩] :=
  ⟨by decide,
   (yum_unqualified_action_core rYum module_aliases_init 7
      (by decide) (by decide)).1⟩

/-- C6: on a document of kind `playbook`, `matchplay` returns exactly one
finding tagged `fqcn[keyword]` when the play data has a top-level
`collections` key, and the empty list when it does not. -/
theorem collections_keyword_finding (dataKeys : List Str) (ln : Nat) :
    ("collections".data ∈ dataKeys →
      matchplay "playbook".data dataKeys ln
        = [⟨msg_keyword, [], tag_keyword, ln⟩]) ∧
    ("collections".data ∉ dataKeys →
      matchplay "playbook".data dataKeys ln = []) := by
  constructor
  · intro h
    simp [matchplay, h]
  · intro h
    simp [matchplay, h]

/-- Witness for C6 on concrete play data with a `collections` key. -/
theorem collections_keyword_finding_witness :
    "collections".data ∈ ["hosts".data, "collections".data] ∧
    matchplay "playbook".data ["hosts".data, "collections".data] 3
      = [⟨msg_keyword, [], tag_keyword, 3⟩] :=
  ⟨by decide,
   (collections_keyword_finding ["hosts".data, "collections".data] 3).1 (by decide)⟩

/-- C7: when the resolver cannot resolve an uncached module,
`matchtask` logs a warning for it, records the module as its own
canonical form in the cache, and returns zero findings. -/
theorem unresolved_reference_recovery (resolve : Str → Option Str)
    (c : List (Str × Str)) (module : Str) (ln : Nat)
    (hc : odFind module c = none) (hr : resolve module = none) :
    (matchtask resolve c module ln).errors = [] ∧
    odFind module (matchtask resolve c module ln).cache = some module ∧
    (matchtask resolve c module ln).warns = [module] := by
  refine ⟨?_, ?_, ?_⟩ <;> simp [matchtask, hc, hr, odFind_odSet_self]

/-- Witness for C7 with a resolver that resolves nothing. -/
theorem unresolved_reference_recovery_witness :
    odFind "does.not.exist".data module_aliases_init = none ∧
    (matchtask rNone module_aliases_init "does.not.exist".data 4).errors = [] ∧
    odFind "does.not.exist".data
        (matchtask rNone module_aliases_init "does.not.exist".data 4).cache
      = some "does.not.exist".data :=
  ⟨by decide,
   (unresolved_reference_recovery rNone module_aliases_init
      "does.not.exist".data 4 (by decide) rfl).1,
   (unresolved_reference_recovery rNone module_aliases_init
      "does.not.exist".data 4 (by decide) rfl).2.1⟩

/-- C8 counterexample: after instance 1 runs `matchtask` on `ping`, a
distinct freshly constructed instance 2 reads `module_aliases` and does
not see the initial class-definition dict — it observes instance 1's
`ping` entry, because line 103 of fqcn.py declares `module_aliases` as a
class attribute and item assignment through `self` mutates that single
shared dict. -/
theorem cache_isolation_counterexample :
    readModuleAliases
        (matchtask rPing (readModuleAliases module_aliases_init ⟨1⟩)
          "ping".data 5).cache ⟨2⟩
      ≠ module_aliases_init ∧
    odFind "ping".data
        (readModuleAliases
          (matchtask rPing (readModuleAliases module_aliases_init ⟨1⟩)
            "ping".data 5).cache ⟨2⟩)
      = some "ansible.builtin.ping".data := by
  decide

/-- C8 (amended): `module_aliases` is one class-level dict shared by
every `FQCNBuiltinsRule` instance in the process; a resolution performed
through any instance is observed through every other instance, and a
freshly constructed instance starts with whatever the shared dict has
accumulated (only at class-definition time is it the initial
`block/always/rescue` singleton). -/
theorem cache_shared_across_instances (resolve : Str → Option Str)
    (module t : Str) (ln : Nat) (i j : FQCNInstance)
    (hc : odFind module module_aliases_init = none)
    (hr : resolve module = some t) :
    odFind module
        (readModuleAliases
          (matchtask resolve (readModuleAliases module_aliases_init i)
            module ln).cache j)
      = some t :=
  matchtask_self_lookup hc hr

/-- Witness for the amended C8 with two concrete distinct instances. -/
theorem cache_shared_across_instances_witness :
    odFind "ping".data module_aliases_init = none ∧
    odFind "ping".data
        (readModuleAliases
          (matchtask rPing (readModuleAliases module_aliases_init ⟨1⟩)
            "ping".data 5).cache ⟨3⟩)
      = some "ansible.builtin.ping".data :=
  ⟨by decide,
   cache_shared_across_instances rPing "ping".data "ansible.builtin.ping".data
     5 ⟨1⟩ ⟨3⟩ (by decide) (by decide)⟩

/-- C9 evaluation at the failing input: the `rulebook` entry of
`DEFAULT_KINDS` (config.py line 55) carries the pattern
`**/rulebooks/*.\x7byml,yaml` whose brace-alternation is left unclosed, so
the pattern is not well-formed under the stated syntax; consequently the
path `rulebooks/r.yml` is classified by first-match-wins as `yaml` (the
generic entry), not `rulebook`, although the evidently intended pattern
`**/rulebooks/*.\x7byml,yaml\x7d` would match it. -/
theorem rulebook_entry_malformed :
    DEFAULT_KINDS[14]? = some ("rulebook".data, "**/rulebooks/*.\x7byml,yaml".data) ∧
    braceWF "**/rulebooks/*.\x7byml,yaml".data = false ∧
    classifyPath DEFAULT_KINDS "rulebooks/r.yml".data = some "yaml".data ∧
    patMatch "**/rulebooks/*.\x7byml,yaml\x7d".data "rulebooks/r.yml".data = true := by
  decide

/-- C10: for module and alias names free of backtick and parenthesis
characters, the string parsing of `transform` recovers exactly the current
action name and the new action name that `matchtask` embedded in the
finding's message and details, for each of the three fixable tags. -/
theorem message_roundtrip (module malias : Str)
    (h1 : btk ∉ module) (h2 : '(' ∉ module) (h3 : ')' ∉ module)
    (h4 : btk ∉ malias) (h5 : '(' ∉ malias) (h6 : ')' ∉ malias) :
    parse_core (msg_core module)
        (details_core malias
          (replaceFirst "ansible.builtin.".data "ansible.legacy.".data malias))
      = (module, malias) ∧
    parse_action (msg_action malias) (details_action module) = (module, malias) ∧
    parse_canonical (msg_canonical malias module) = (module, malias) :=
  ⟨parse_core_roundtrip _ h2 h4,
   parse_action_roundtrip h1 h4,
   parse_canonical_roundtrip h1 h4⟩

/-- Witness for C10 at the concrete pair `dnf` / `ansible.builtin.dnf`. -/
theorem message_roundtrip_witness :
    (btk ∉ "dnf".data ∧ '(' ∉ "dnf".data) ∧
    (parse_core (msg_core "dnf".data)
        (details_core "ansible.builtin.dnf".data
          (replaceFirst "ansible.builtin.".data "ansible.legacy.".data
            "ansible.builtin.dnf".data))
      = ("dnf".data, "ansible.builtin.dnf".data) ∧
     parse_action (msg_action "ansible.builtin.dnf".data)
        (details_action "dnf".data)
      = ("dnf".data, "ansible.builtin.dnf".data) ∧
     parse_canonical (msg_canonical "ansible.builtin.dnf".data "dnf".data)
      = ("dnf".data, "ansible.builtin.dnf".data)) :=
  ⟨⟨by decide, by decide⟩,
   message_roundtrip "dnf".data "ansible.builtin.dnf".data
     (by decide) (by decide) (by decide) (by decide) (by decide) (by decide)⟩
